import Mathlib

/-!
Verification development for `zproxy` (src/zproxy.go), a virtual-host HTTP
router.  The Go program keeps four process-wide maps keyed by host name
(`redirect`, `proxy`, `notFound`, `static`), populated at startup by the
factory functions `addRedirect` / `addProxy` / `addNotFound` / `addStatic`,
and dispatches every request through `Handler`, which probes the maps in the
fixed order redirect, proxy, notFound, static, falling back to a generic
not-found handler.

The shallow embedding below models:
  * Go `map[string]V` as `String → Option V`, with assignment `m[k] = v`
    as pointwise functional update (`mapInsert`);
  * each handler's `ServeHTTP` as a pure function from a request to a pair
    of the log line it emits (`log.Printf` output) and the HTTP response it
    writes; `Static.ServeHTTP` returns `Option` because `request.URL.Path[1:]`
    panics in Go when the path is empty;
  * `log.Fatal` during registration (in `addProxy`) as `none` of an
    `Option State`, since it terminates the process;
  * `net/url.Parse` from the Go standard library (not part of this
    repository) as an arbitrary function `String → Option GoURL`, quantified
    in every statement that depends on it;
  * the registration loop of `main` as a monadic fold `buildTable` over the
    per-file `(host, type, parameters)` tuples produced by the (out of
    scope) config loader.
-/

/-- The parsed URL produced by Go's `net/url.Parse`.  The parser itself is
standard-library code outside this repository, so every statement quantifies
over an arbitrary parser `String → Option GoURL`; only the success/failure
distinction and the identity of the parsed value matter to the router. -/
structure GoURL where
  scheme : String
  host : String
  path : String
deriving DecidableEq, Repr

/-- An inbound HTTP request, restricted to the fields `Handler` and the four
`ServeHTTP` methods actually read: `request.Host`, `request.URL.Path` and
`request.RequestURI` (the full path-and-query). -/
structure Request where
  host : String
  urlPath : String
  requestURI : String
deriving DecidableEq, Repr

/-- The response a handler writes, abstracted to the observable outcome:
a 3xx redirect with a `Location` value, a file served from a filesystem
path, a request forwarded to an upstream, or a plain status/body response. -/
inductive Response where
  | redirectResp (status : Nat) (location : String)
  | fileResp (fsPath : String)
  | proxiedResp (target : GoURL) (uri : String)
  | plainResp (status : Nat) (body : String)
deriving DecidableEq, Repr

/-- Go's `http.NotFoundHandler()`: replies 404 with body
`"404 page not found\n"` regardless of the request. -/
def httpNotFoundHandler : Request → Response :=
  fun _ => Response.plainResp 404 ("404 page not found\n")

/-- Model of `var genericNotFound = http.NotFoundHandler()` (src/zproxy.go line 72). -/
def genericNotFound : Request → Response := httpNotFoundHandler

/-- Model of `type Redirect struct { To string; http.Handler }`.  The embedded
`http.Handler` field is never assigned or read, so it is omitted. -/
structure Redirect where
  To : String
deriving DecidableEq, Repr

/-- Model of `Redirect.ServeHTTP`: logs `"Redirecting(%v) %v\n"` and calls
`http.Redirect(writer, request, redirect.To+request.RequestURI, 301)`,
which sets the status to 301 and the Location to the given string —
literal concatenation of `To` with the request URI. -/
def Redirect.serveHTTP (r : Redirect) (req : Request) : String × Response :=
  ("Redirecting(" ++ req.host ++ ") " ++ r.To ++ "\n",
   Response.redirectResp 301 (r.To ++ req.requestURI))

/-- Model of `type Static struct { Dir string; http.Handler }`.  `addStatic` stores
`http.FileServer(http.Dir(dir))` in the embedded handler, but
`Static.ServeHTTP` never consults it (it calls `http.ServeFile` directly),
so only `Dir` is modelled. -/
structure Static where
  Dir : String
deriving DecidableEq, Repr

/-- Model of `Static.ServeHTTP`: computes `path := request.URL.Path[1:]` — which in Go
panics when the path is empty (slice bound 1 exceeds the length) and
otherwise drops the first character unconditionally — then logs
`"Serving(%v) %v%v\n"` and calls `http.ServeFile(writer, request,
static.Dir+path)`.  The panic is modelled as `none`. -/
def Static.serveHTTP (s : Static) (req : Request) : Option (String × Response) :=
  if req.urlPath = "" then
    none
  else
    let path := req.urlPath.drop 1
    some ("Serving(" ++ req.host ++ ") " ++ s.Dir ++ path ++ "\n",
          Response.fileResp (s.Dir ++ path))

/-- Model of `httputil.NewSingleHostReverseProxy(u)`: a forwarding client bound to the
parsed upstream URL.  Its `ServeHTTP` forwards the request to that target;
the forwarded exchange itself is stdlib behavior, abstracted to a
`proxiedResp` carrying the bound target and the request URI. -/
structure SingleHostReverseProxy where
  target : GoURL
deriving DecidableEq, Repr

def SingleHostReverseProxy.serveHTTP (p : SingleHostReverseProxy) (req : Request) : Response :=
  Response.proxiedResp p.target req.requestURI

/-- Model of `type Proxy struct { To string; ReverseProxy *httputil.ReverseProxy }`. -/
structure Proxy where
  To : String
  ReverseProxy : SingleHostReverseProxy
deriving DecidableEq, Repr

/-- Model of `Proxy.ServeHTTP`: logs `"Proxying(%v) %v%v\n"` and delegates to the
stored reverse-proxy client. -/
def Proxy.serveHTTP (p : Proxy) (req : Request) : String × Response :=
  ("Proxying(" ++ req.host ++ ") " ++ p.To ++ req.requestURI ++ "\n",
   p.ReverseProxy.serveHTTP req)

/-- Model of `type NotFound struct { http.Handler }`: holds the handler installed by
`addNotFound` (namely `http.NotFoundHandler()`). -/
structure NotFound where
  handler : Request → Response

/-- Model of `NotFound.ServeHTTP`: logs `"Not Found(%v) %v\n"` and delegates to the
embedded handler. -/
def NotFound.serveHTTP (nf : NotFound) (req : Request) : String × Response :=
  ("Not Found(" ++ req.host ++ ") " ++ req.requestURI ++ "\n",
   nf.handler req)

/-- The four process-wide maps (src/zproxy.go lines 67–71), each a Go
`map[string]V` modelled as `String → Option V`. -/
structure State where
  redirect : String → Option Redirect
  proxy : String → Option Proxy
  notFound : String → Option NotFound
  static : String → Option Static

attribute [ext] State

/-- Go map assignment `m[k] = v`: point update, silently replacing any
existing entry for `k`. -/
def mapInsert {V : Type} (m : String → Option V) (k : String) (v : V) :
    String → Option V :=
  fun k' => if k' = k then some v else m k'

/-- The state after `main` runs `make` on the four maps: all empty. -/
def State.init : State :=
  { redirect := fun _ => none
    proxy := fun _ => none
    notFound := fun _ => none
    static := fun _ => none }

/-- Model of `addNotFound(host)`: unconditionally stores
`NotFound{Handler: http.NotFoundHandler()}` under `host`. -/
def addNotFound (st : State) (host : String) : State :=
  { st with notFound := mapInsert st.notFound host ⟨httpNotFoundHandler⟩ }

/-- Model of `addRedirect(from, to)`: unconditionally stores `Redirect{To: to}`
under `from`. -/
def addRedirect (st : State) (frm dst : String) : State :=
  { st with redirect := mapInsert st.redirect frm ⟨dst⟩ }

/-- Model of `addProxy(host, to)`: parses `to` with `url.Parse`; on error calls
`log.Fatal` (process terminates — modelled as `none`); on success stores
`Proxy{To: to, ReverseProxy: httputil.NewSingleHostReverseProxy(u)}`. -/
def addProxy (parse : String → Option GoURL) (st : State) (host dst : String) :
    Option State :=
  match parse dst with
  | none => none
  | some u =>
      some { st with proxy := mapInsert st.proxy host ⟨dst, ⟨u⟩⟩ }

/-- Model of `addStatic(host, dir)`: unconditionally stores `Static{Dir: dir, ...}`
under `host`. -/
def addStatic (st : State) (host dir : String) : State :=
  { st with static := mapInsert st.static host ⟨dir⟩ }

/-- One `(host, type, parameters)` registration tuple, as extracted from a
config file by the loop in `main` (the config-file reading itself is out of
scope; `main` calls exactly one of the four factories per file, keyed on the
`type` value). -/
inductive RouteConfig where
  | notFoundCfg (host : String)
  | proxyCfg (host dst : String)
  | staticCfg (host dir : String)
  | redirectCfg (host dst : String)
deriving DecidableEq, Repr

/-- One iteration of the registration loop in `main`: dispatch on `type` to
the matching factory.  Only `addProxy` can fail (fatally). -/
def applyConfig (parse : String → Option GoURL) (st : State) :
    RouteConfig → Option State
  | RouteConfig.notFoundCfg h => some (addNotFound st h)
  | RouteConfig.proxyCfg h dst => addProxy parse st h dst
  | RouteConfig.staticCfg h d => some (addStatic st h d)
  | RouteConfig.redirectCfg h dst => some (addRedirect st h dst)

/-- The whole registration loop of `main`: starting from the four empty maps,
process each config tuple in order; any fatal error aborts the remainder of
startup (the server is only started after the loop completes). -/
def buildTable (parse : String → Option GoURL) (cfgs : List RouteConfig) :
    Option State :=
  cfgs.foldlM (applyConfig parse) State.init

/-- Model of `Handler` (src/zproxy.go lines 111–149): look the request's host up in
`redirect`, then `proxy`, then `notFound`, then `static`, serving with the
first hit; if none hits, log `"Host Not Found(%v)\n"` and serve
`genericNotFound`.  Result is the (log line, response) pair; `none` models
the panic propagated from `Static.ServeHTTP` on an empty URL path. -/
def Handler (st : State) (req : Request) : Option (String × Response) :=
  match st.redirect req.host with
  | some r => some (r.serveHTTP req)
  | none =>
    match st.proxy req.host with
    | some p => some (p.serveHTTP req)
    | none =>
      match st.notFound req.host with
      | some nf => some (nf.serveHTTP req)
      | none =>
        match st.static req.host with
        | some s => s.serveHTTP req
        | none =>
            some ("Host Not Found(" ++ req.host ++ ")" ++ "\n",
                  genericNotFound req)

/-- One serving step acting on the process-wide maps: `Handler` reads the
four maps but contains no assignment to any of them, so the global state
after the call is the state before it. -/
def serveOnce (st : State) (req : Request) :
    Option (String × Response) × State :=
  (Handler st req, st)

/-! ### Last-registration projections

The registration loop touches one variant map per tuple, and a Go map
assignment replaces any earlier entry for the same key.  Consequently the
content of each variant map at a host is fully determined by the sub-sequence
of that variant's registrations, with the last one winning — the interleaving
with registrations of the other variants is irrelevant.  The following
projections compute, for each variant, the parameter of the last registration
for a given host in a config list. -/

def lastRedirectFor : List RouteConfig → String → Option String
  | [], _ => none
  | c :: cs, h =>
    match lastRedirectFor cs h with
    | some d => some d
    | none =>
      match c with
      | RouteConfig.redirectCfg h' d => if h = h' then some d else none
      | _ => none

def lastProxyFor : List RouteConfig → String → Option String
  | [], _ => none
  | c :: cs, h =>
    match lastProxyFor cs h with
    | some d => some d
    | none =>
      match c with
      | RouteConfig.proxyCfg h' d => if h = h' then some d else none
      | _ => none

def lastStaticFor : List RouteConfig → String → Option String
  | [], _ => none
  | c :: cs, h =>
    match lastStaticFor cs h with
    | some d => some d
    | none =>
      match c with
      | RouteConfig.staticCfg h' d => if h = h' then some d else none
      | _ => none

def hasNotFoundFor : List RouteConfig → String → Bool
  | [], _ => false
  | c :: cs, h =>
    hasNotFoundFor cs h ||
      match c with
      | RouteConfig.notFoundCfg h' => decide (h = h')
      | _ => false

theorem mapInsert_self {V : Type} (m : String → Option V) (k : String) (v : V) :
    mapInsert m k v k = some v := by
  simp [mapInsert]

theorem mapInsert_ne {V : Type} (m : String → Option V) (k k' : String) (v : V)
    (h : k' ≠ k) : mapInsert m k v k' = m k' := by
  simp [mapInsert, h]

/-- Running the registration loop from an arbitrary starting state: each
variant map at each host ends up holding exactly the last registration of
that variant for that host (or the starting state's entry when the list has
none), independently of how registrations of different variants interleave. -/
theorem buildFrom_lookup (parse : String → Option GoURL) :
    ∀ (cfgs : List RouteConfig) (st₀ st : State),
      List.foldlM (applyConfig parse) st₀ cfgs = some st → ∀ h,
      (∀ d, lastRedirectFor cfgs h = some d → st.redirect h = some ⟨d⟩)
      ∧ (lastRedirectFor cfgs h = none → st.redirect h = st₀.redirect h)
      ∧ (∀ d, lastProxyFor cfgs h = some d →
          ∃ u, parse d = some u ∧ st.proxy h = some ⟨d, ⟨u⟩⟩)
      ∧ (lastProxyFor cfgs h = none → st.proxy h = st₀.proxy h)
      ∧ (hasNotFoundFor cfgs h = true →
          st.notFound h = some ⟨httpNotFoundHandler⟩)
      ∧ (hasNotFoundFor cfgs h = false → st.notFound h = st₀.notFound h)
      ∧ (∀ d, lastStaticFor cfgs h = some d → st.static h = some ⟨d⟩)
      ∧ (lastStaticFor cfgs h = none → st.static h = st₀.static h) := by
  intro cfgs
  induction cfgs with
  | nil =>
      intro st₀ st hfold h
      simp only [List.foldlM_nil] at hfold
      have hst : st₀ = st := Option.some.inj hfold
      subst hst
      simp [lastRedirectFor, lastProxyFor, lastStaticFor, hasNotFoundFor]
  | cons c cs ih =>
      intro st₀ st hfold h
      rw [List.foldlM_cons] at hfold
      cases hac : applyConfig parse st₀ c with
      | none =>
        rw [hac] at hfold
        exact Option.noConfusion hfold
      | some st₁ =>
        rw [hac] at hfold
        have hfold' : List.foldlM (applyConfig parse) st₁ cs = some st := hfold
        obtain ⟨ihR, ihRn, ihP, ihPn, ihN, ihNn, ihS, ihSn⟩ := ih st₁ st hfold' h
        cases c with
        | notFoundCfg h' =>
            simp only [applyConfig, Option.some.injEq] at hac
            subst hac
            refine ⟨?_, ?_, ?_, ?_, ?_, ?_, ?_, ?_⟩ <;>
              simp only [lastRedirectFor, lastProxyFor, lastStaticFor,
                hasNotFoundFor]
            · intro d hd
              cases hcs : lastRedirectFor cs h with
              | some d' =>
                  rw [hcs] at hd
                  have hd' : d' = d := Option.some.inj hd
                  exact hd' ▸ ihR d' hcs
              | none =>
                  rw [hcs] at hd
                  exact Option.noConfusion hd
            · intro hnone
              cases hcs : lastRedirectFor cs h with
              | some d' =>
                  rw [hcs] at hnone
                  exact Option.noConfusion hnone
              | none =>
                  exact ihRn hcs
            · intro d hd
              cases hcs : lastProxyFor cs h with
              | some d' =>
                  rw [hcs] at hd
                  have hd' : d' = d := Option.some.inj hd
                  exact hd' ▸ ihP d' hcs
              | none =>
                  rw [hcs] at hd
                  exact Option.noConfusion hd
            · intro hnone
              cases hcs : lastProxyFor cs h with
              | some d' =>
                  rw [hcs] at hnone
                  exact Option.noConfusion hnone
              | none =>
                  exact ihPn hcs
            · intro hnf
              rcases Bool.or_eq_true_iff.mp hnf with htail | hhead
              · exact ihN htail
              · have hh : h = h' := of_decide_eq_true hhead
                cases htail : hasNotFoundFor cs h with
                | true => exact ihN htail
                | false =>
                    rw [ihNn htail]
                    subst hh
                    exact mapInsert_self _ _ _
            · intro hnf
              rcases Bool.or_eq_false_iff.mp hnf with ⟨htail, hhead⟩
              rw [ihNn htail]
              have hh : h ≠ h' := by
                intro hcontra
                rw [hcontra] at hhead
                simp at hhead
              exact mapInsert_ne _ _ _ _ hh
            · intro d hd
              cases hcs : lastStaticFor cs h with
              | some d' =>
                  rw [hcs] at hd
                  have hd' : d' = d := Option.some.inj hd
                  exact hd' ▸ ihS d' hcs
              | none =>
                  rw [hcs] at hd
                  exact Option.noConfusion hd
            · intro hnone
              cases hcs : lastStaticFor cs h with
              | some d' =>
                  rw [hcs] at hnone
                  exact Option.noConfusion hnone
              | none =>
                  exact ihSn hcs
        | redirectCfg h' d₀ =>
            simp only [applyConfig, Option.some.injEq] at hac
            subst hac
            refine ⟨?_, ?_, ?_, ?_, ?_, ?_, ?_, ?_⟩ <;>
              simp only [lastRedirectFor, lastProxyFor, lastStaticFor,
                hasNotFoundFor]
            · intro d hd
              cases hcs : lastRedirectFor cs h with
              | some d' =>
                  rw [hcs] at hd
                  have hd' : d' = d := Option.some.inj hd
                  exact hd' ▸ ihR d' hcs
              | none =>
                  rw [hcs] at hd
                  have hd' : (if h = h' then some d₀ else none) = some d := hd
                  by_cases hh : h = h'
                  · rw [if_pos hh] at hd'
                    have hdd : d₀ = d := Option.some.inj hd'
                    subst hdd
                    rw [ihRn hcs]
                    subst hh
                    simp [addRedirect, mapInsert_self]
                  · rw [if_neg hh] at hd'
                    exact Option.noConfusion hd'
            · intro hnone
              cases hcs : lastRedirectFor cs h with
              | some d' =>
                  rw [hcs] at hnone
                  exact Option.noConfusion hnone
              | none =>
                  rw [hcs] at hnone
                  have hnone' : (if h = h' then some d₀ else none) = none := hnone
                  by_cases hh : h = h'
                  · rw [if_pos hh] at hnone'
                    exact Option.noConfusion hnone'
                  · rw [ihRn hcs]
                    exact mapInsert_ne _ _ _ _ hh
            · intro d hd
              cases hcs : lastProxyFor cs h with
              | some d' =>
                  rw [hcs] at hd
                  have hd' : d' = d := Option.some.inj hd
                  exact hd' ▸ ihP d' hcs
              | none =>
                  rw [hcs] at hd
                  exact Option.noConfusion hd
            · intro hnone
              cases hcs : lastProxyFor cs h with
              | some d' =>
                  rw [hcs] at hnone
                  exact Option.noConfusion hnone
              | none =>
                  exact ihPn hcs
            · intro hnf
              rcases Bool.or_eq_true_iff.mp hnf with htail | hhead
              · exact ihN htail
              · exact Bool.noConfusion hhead
            · intro hnf
              rcases Bool.or_eq_false_iff.mp hnf with ⟨htail, hhead⟩
              exact ihNn htail
            · intro d hd
              cases hcs : lastStaticFor cs h with
              | some d' =>
                  rw [hcs] at hd
                  have hd' : d' = d := Option.some.inj hd
                  exact hd' ▸ ihS d' hcs
              | none =>
                  rw [hcs] at hd
                  exact Option.noConfusion hd
            · intro hnone
              cases hcs : lastStaticFor cs h with
              | some d' =>
                  rw [hcs] at hnone
                  exact Option.noConfusion hnone
              | none =>
                  exact ihSn hcs
        | staticCfg h' d₀ =>
            simp only [applyConfig, Option.some.injEq] at hac
            subst hac
            refine ⟨?_, ?_, ?_, ?_, ?_, ?_, ?_, ?_⟩ <;>
              simp only [lastRedirectFor, lastProxyFor, lastStaticFor,
                hasNotFoundFor]
            · intro d hd
              cases hcs : lastRedirectFor cs h with
              | some d' =>
                  rw [hcs] at hd
                  have hd' : d' = d := Option.some.inj hd
                  exact hd' ▸ ihR d' hcs
              | none =>
                  rw [hcs] at hd
                  exact Option.noConfusion hd
            · intro hnone
              cases hcs : lastRedirectFor cs h with
              | some d' =>
                  rw [hcs] at hnone
                  exact Option.noConfusion hnone
              | none =>
                  exact ihRn hcs
            · intro d hd
              cases hcs : lastProxyFor cs h with
              | some d' =>
                  rw [hcs] at hd
                  have hd' : d' = d := Option.some.inj hd
                  exact hd' ▸ ihP d' hcs
              | none =>
                  rw [hcs] at hd
                  exact Option.noConfusion hd
            · intro hnone
              cases hcs : lastProxyFor cs h with
              | some d' =>
                  rw [hcs] at hnone
                  exact Option.noConfusion hnone
              | none =>
                  exact ihPn hcs
            · intro hnf
              rcases Bool.or_eq_true_iff.mp hnf with htail | hhead
              · exact ihN htail
              · exact Bool.noConfusion hhead
            · intro hnf
              rcases Bool.or_eq_false_iff.mp hnf with ⟨htail, hhead⟩
              exact ihNn htail
            · intro d hd
              cases hcs : lastStaticFor cs h with
              | some d' =>
                  rw [hcs] at hd
                  have hd' : d' = d := Option.some.inj hd
                  exact hd' ▸ ihS d' hcs
              | none =>
                  rw [hcs] at hd
                  have hd' : (if h = h' then some d₀ else none) = some d := hd
                  by_cases hh : h = h'
                  · rw [if_pos hh] at hd'
                    have hdd : d₀ = d := Option.some.inj hd'
                    subst hdd
                    rw [ihSn hcs]
                    subst hh
                    simp [addStatic, mapInsert_self]
                  · rw [if_neg hh] at hd'
                    exact Option.noConfusion hd'
            · intro hnone
              cases hcs : lastStaticFor cs h with
              | some d' =>
                  rw [hcs] at hnone
                  exact Option.noConfusion hnone
              | none =>
                  rw [hcs] at hnone
                  have hnone' : (if h = h' then some d₀ else none) = none := hnone
                  by_cases hh : h = h'
                  · rw [if_pos hh] at hnone'
                    exact Option.noConfusion hnone'
                  · rw [ihSn hcs]
                    exact mapInsert_ne _ _ _ _ hh
        | proxyCfg h' d₀ =>
            simp only [applyConfig] at hac
            cases hp : parse d₀ with
            | none =>
                rw [addProxy, hp] at hac
                exact Option.noConfusion hac
            | some u₀ =>
            rw [addProxy, hp] at hac
            have hac' : ({ st₀ with
                proxy := mapInsert st₀.proxy h' ⟨d₀, ⟨u₀⟩⟩ } : State) = st₁ :=
              Option.some.inj hac
            subst hac'
            refine ⟨?_, ?_, ?_, ?_, ?_, ?_, ?_, ?_⟩ <;>
              simp only [lastRedirectFor, lastProxyFor, lastStaticFor,
                hasNotFoundFor]
            · intro d hd
              cases hcs : lastRedirectFor cs h with
              | some d' =>
                  rw [hcs] at hd
                  have hd' : d' = d := Option.some.inj hd
                  exact hd' ▸ ihR d' hcs
              | none =>
                  rw [hcs] at hd
                  exact Option.noConfusion hd
            · intro hnone
              cases hcs : lastRedirectFor cs h with
              | some d' =>
                  rw [hcs] at hnone
                  exact Option.noConfusion hnone
              | none =>
                  exact ihRn hcs
            · intro d hd
              cases hcs : lastProxyFor cs h with
              | some d' =>
                  rw [hcs] at hd
                  have hd' : d' = d := Option.some.inj hd
                  exact hd' ▸ ihP d' hcs
              | none =>
                  rw [hcs] at hd
                  have hd' : (if h = h' then some d₀ else none) = some d := hd
                  by_cases hh : h = h'
                  · rw [if_pos hh] at hd'
                    have hdd : d₀ = d := Option.some.inj hd'
                    subst hdd
                    refine ⟨u₀, hp, ?_⟩
                    rw [ihPn hcs]
                    subst hh
                    exact mapInsert_self _ _ _
                  · rw [if_neg hh] at hd'
                    exact Option.noConfusion hd'
            · intro hnone
              cases hcs : lastProxyFor cs h with
              | some d' =>
                  rw [hcs] at hnone
                  exact Option.noConfusion hnone
              | none =>
                  rw [hcs] at hnone
                  have hnone' : (if h = h' then some d₀ else none) = none := hnone
                  by_cases hh : h = h'
                  · rw [if_pos hh] at hnone'
                    exact Option.noConfusion hnone'
                  · rw [ihPn hcs]
                    exact mapInsert_ne _ _ _ _ hh
            · intro hnf
              rcases Bool.or_eq_true_iff.mp hnf with htail | hhead
              · exact ihN htail
              · exact Bool.noConfusion hhead
            · intro hnf
              rcases Bool.or_eq_false_iff.mp hnf with ⟨htail, hhead⟩
              exact ihNn htail
            · intro d hd
              cases hcs : lastStaticFor cs h with
              | some d' =>
                  rw [hcs] at hd
                  have hd' : d' = d := Option.some.inj hd
                  exact hd' ▸ ihS d' hcs
              | none =>
                  rw [hcs] at hd
                  exact Option.noConfusion hd
            · intro hnone
              cases hcs : lastStaticFor cs h with
              | some d' =>
                  rw [hcs] at hnone
                  exact Option.noConfusion hnone
              | none =>
                  exact ihSn hcs

/-! ### Helper lemmas -/

theorem mapInsert_mapInsert {V : Type} (m : String → Option V) (k : String)
    (v₁ v₂ : V) : mapInsert (mapInsert m k v₁) k v₂ = mapInsert m k v₂ := by
  funext k'
  by_cases h : k' = k <;> simp [mapInsert, h]

/-- Dropping one character from a string that begins with `/` removes exactly
that leading separator. -/
theorem drop_one_of_leading_slash (rest : String) :
    (("/" : String) ++ rest).drop 1 = rest := by
  rw [String.drop_eq]
  have hd : (("/" : String) ++ rest).data = '/' :: rest.data := by
    rw [String.data_append]
    rfl
  rw [hd]
  cases rest
  rfl

/-- The log line of an explicit `NotFound` entry never coincides with the
log line of the generic fallback (they start with different characters). -/
theorem notFound_log_ne_generic_log (a b c : String) :
    ("Not Found(" ++ a ++ ") " ++ b ++ "\n" : String) ≠
      ("Host Not Found(" ++ c ++ ")" ++ "\n" : String) := by
  intro heq
  have hdata := congrArg String.data heq
  simp only [String.data_append] at hdata
  simp only [List.cons_append] at hdata
  injection hdata with h1 _
  exact absurd h1 (by decide)

/-! ### Claim theorems -/

/-- Claim C2: a request dispatched to a `Redirect` entry yields status 301
with `Location` equal to the destination prefix concatenated — literally,
with no encoding transformation — with the request's full path-and-query
(`request.RequestURI`). -/
theorem redirect_emits_301_literal_concat (st : State) (req : Request)
    (r : Redirect) (hr : st.redirect req.host = some r) :
    Handler st req =
      some ("Redirecting(" ++ req.host ++ ") " ++ r.To ++ "\n",
        Response.redirectResp 301 (r.To ++ req.requestURI)) := by
  simp [Handler, hr, Redirect.serveHTTP]

def wStC2 : State := addRedirect State.init ("example.com") "https://example.com"

def wReqC2 : Request := ⟨"example.com", "/a/b", "/a/b?x=1"⟩

/-- Witness for C2, on the spec's worked example: destination prefix
`https://example.com` and request URI `/a/b?x=1` yield Location
`https://example.com/a/b?x=1`. -/
theorem redirect_emits_301_literal_concat_witness :
    Handler wStC2 wReqC2 =
      some ("Redirecting(example.com) https://example.com\n",
        Response.redirectResp 301 ("https://example.com/a/b?x=1")) := by
  have h := redirect_emits_301_literal_concat wStC2 wReqC2
    ⟨"https://example.com"⟩ rfl
  rw [h]
  rfl

/-- Claim C3: a request whose host is in none of the four maps gets the
generic not-found response (404, standard body) — a defined outcome, with no
registered handler invoked. -/
theorem unregistered_host_generic (st : State) (req : Request)
    (h1 : st.redirect req.host = none) (h2 : st.proxy req.host = none)
    (h3 : st.notFound req.host = none) (h4 : st.static req.host = none) :
    Handler st req =
      some ("Host Not Found(" ++ req.host ++ ")" ++ "\n",
        Response.plainResp 404 ("404 page not found\n")) := by
  simp [Handler, h1, h2, h3, h4, genericNotFound, httpNotFoundHandler]

/-- Witness for C3: the empty table sends any request to the generic
not-found response. -/
theorem unregistered_host_generic_witness :
    Handler State.init ⟨"nosuch.example", "/p", "/p?q=1"⟩ =
      some ("Host Not Found(nosuch.example)\n",
        Response.plainResp 404 ("404 page not found\n")) := by
  have h := unregistered_host_generic State.init ⟨"nosuch.example", "/p", "/p?q=1"⟩
    rfl rfl rfl rfl
  rw [h]
  rfl

/-- Claim C6 counterexample: `addNotFound` performs no validation at all —
in particular it does not require a non-empty host: called with the empty
host string it still inserts an entry (keyed by `""`). -/
theorem addNotFound_accepts_empty_host :
    (addNotFound State.init ("")).notFound ("") = some ⟨httpNotFoundHandler⟩ := by
  simp [addNotFound, mapInsert]

/-- Claim C6 (amended): `addNotFound(host)` inserts a `NotFound` entry for
`host` unconditionally, with no validation whatsoever — the host may even be
empty — leaving every other key and every other map untouched. -/
theorem addNotFound_unconditional_insert (st : State) (host : String) :
    (addNotFound st host).notFound host = some ⟨httpNotFoundHandler⟩
    ∧ (∀ h', h' ≠ host → (addNotFound st host).notFound h' = st.notFound h')
    ∧ (addNotFound st host).redirect = st.redirect
    ∧ (addNotFound st host).proxy = st.proxy
    ∧ (addNotFound st host).static = st.static := by
  refine ⟨?_, fun _ hne => ?_, rfl, rfl, rfl⟩
  · simp [addNotFound, mapInsert]
  · simp [addNotFound, mapInsert, hne]

/-- Witness for the amended C6 at concrete hosts. -/
theorem addNotFound_unconditional_insert_witness :
    (addNotFound State.init ("a")).notFound ("b") = State.init.notFound ("b")
    ∧ (addNotFound State.init ("a")).notFound ("a") = some ⟨httpNotFoundHandler⟩ :=
  ⟨(addNotFound_unconditional_insert State.init ("a")).2.1 ("b") (by decide),
   (addNotFound_unconditional_insert State.init ("a")).1⟩

/-- Claim C9: dispatch is deterministic and mutation-free — `Handler`
contains no write to the four maps, so a serving step returns the global
state unchanged, and a second invocation on that state with the same request
produces the identical result. -/
theorem dispatch_deterministic_no_mutation (st : State) (req : Request) :
    (serveOnce st req).2 = st
    ∧ (serveOnce (serveOnce st req).2 req).1 = (serveOnce st req).1 :=
  ⟨rfl, rfl⟩

/-- Claim C10: `Static.ServeHTTP` slices the URL path at index 1, which is
defined exactly when the path is non-empty (in Go, `request.URL.Path[1:]`
panics on an empty path), and on a non-empty path it removes the first
character unconditionally — whether or not that character is `/`. -/
theorem static_slice_defined_iff_nonempty (s : Static) (req : Request) :
    (Static.serveHTTP s req = none ↔ req.urlPath = "")
    ∧ (req.urlPath ≠ "" →
        Static.serveHTTP s req =
          some ("Serving(" ++ req.host ++ ") " ++ s.Dir ++
              req.urlPath.drop 1 ++ "\n",
            Response.fileResp (s.Dir ++ req.urlPath.drop 1))) := by
  refine ⟨⟨fun hn => ?_, fun hp => by simp [Static.serveHTTP, hp]⟩,
    fun hp => by simp [Static.serveHTTP, hp]⟩
  by_cases hp : req.urlPath = ""
  · exact hp
  · simp [Static.serveHTTP, hp] at hn

/-- Witness for C10 on a path that does not start with `/`: the first
character `a` of path `abc` is removed all the same. -/
theorem static_slice_defined_iff_nonempty_witness :
    Static.serveHTTP ⟨"/d/"⟩ ⟨"h.example", "abc", "abc"⟩ =
      some ("Serving(h.example) /d/bc\n", Response.fileResp ("/d/bc")) := by
  have h := (static_slice_defined_iff_nonempty ⟨"/d/"⟩
    ⟨"h.example", "abc", "abc"⟩).2 (by decide)
  rw [h]
  rfl

/-- Claim C5: a request dispatched to a `StaticSite` entry is served from the
filesystem path obtained by concatenating the root directory with the request
path minus its leading path separator. -/
theorem static_serves_root_concat (st : State) (req : Request) (s : Static)
    (rest : String)
    (h1 : st.redirect req.host = none) (h2 : st.proxy req.host = none)
    (h3 : st.notFound req.host = none) (h4 : st.static req.host = some s)
    (hp : req.urlPath = "/" ++ rest) :
    Handler st req =
      some ("Serving(" ++ req.host ++ ") " ++ s.Dir ++ rest ++ "\n",
        Response.fileResp (s.Dir ++ rest)) := by
  have hne : req.urlPath ≠ "" := by
    rw [hp]
    intro he
    have hd := congrArg String.data he
    simp [String.data_append] at hd
  have hdrop : req.urlPath.drop 1 = rest := by
    rw [hp]
    exact drop_one_of_leading_slash rest
  simp [Handler, h1, h2, h3, h4, Static.serveHTTP, hne, hdrop]

def wStC5 : State := addStatic State.init ("files.example") "/srv/www/"

/-- Witness for C5, on the spec's worked example: root directory `/srv/www/`
and request path `/index.html` serve the file `/srv/www/index.html`. -/
theorem static_serves_root_concat_witness :
    Handler wStC5 ⟨"files.example", "/index.html", "/index.html"⟩ =
      some ("Serving(files.example) /srv/www/index.html\n",
        Response.fileResp ("/srv/www/index.html")) := by
  have h := static_serves_root_concat wStC5
    ⟨"files.example", "/index.html", "/index.html"⟩ ⟨"/srv/www/"⟩
    "index.html" rfl rfl rfl rfl rfl
  rw [h]
  rfl

/-- Claim C7: each registration operation is idempotent — repeating the call
with the same arguments leaves the table exactly as after one call — and a
later registration for the same host in the same variant map silently
replaces the earlier entry (last registration wins). -/
theorem registration_idempotent_last_wins :
    (∀ st h, addNotFound (addNotFound st h) h = addNotFound st h)
    ∧ (∀ st h d, addRedirect (addRedirect st h d) h d = addRedirect st h d)
    ∧ (∀ st h d, addStatic (addStatic st h d) h d = addStatic st h d)
    ∧ (∀ parse st h d st', addProxy parse st h d = some st' →
        addProxy parse st' h d = some st')
    ∧ (∀ st h d₁ d₂,
        addRedirect (addRedirect st h d₁) h d₂ = addRedirect st h d₂)
    ∧ (∀ st h d₁ d₂,
        addStatic (addStatic st h d₁) h d₂ = addStatic st h d₂)
    ∧ (∀ parse st h d₁ d₂ st', addProxy parse st h d₁ = some st' →
        addProxy parse st' h d₂ = addProxy parse st h d₂) := by
  have hnf : ∀ st h, addNotFound (addNotFound st h) h = addNotFound st h := by
    intro st h
    show ({ st with
      notFound := mapInsert (mapInsert st.notFound h ⟨httpNotFoundHandler⟩) h ⟨httpNotFoundHandler⟩ } : State) = _
    rw [mapInsert_mapInsert]
    rfl
  have hred : ∀ st h d₁ d₂,
      addRedirect (addRedirect st h d₁) h d₂ = addRedirect st h d₂ := by
    intro st h d₁ d₂
    show ({ st with
      redirect := mapInsert (mapInsert st.redirect h ⟨d₁⟩) h ⟨d₂⟩ } : State) = _
    rw [mapInsert_mapInsert]
    rfl
  have hsta : ∀ st h d₁ d₂,
      addStatic (addStatic st h d₁) h d₂ = addStatic st h d₂ := by
    intro st h d₁ d₂
    show ({ st with
      static := mapInsert (mapInsert st.static h ⟨d₁⟩) h ⟨d₂⟩ } : State) = _
    rw [mapInsert_mapInsert]
    rfl
  have hpro : ∀ parse st h d₁ d₂ st', addProxy parse st h d₁ = some st' →
      addProxy parse st' h d₂ = addProxy parse st h d₂ := by
    intro parse st h d₁ d₂ st' hsucc
    cases hp₁ : parse d₁ with
    | none =>
        rw [addProxy, hp₁] at hsucc
        exact Option.noConfusion hsucc
    | some u₁ =>
        rw [addProxy, hp₁] at hsucc
        have hst' : ({ st with
          proxy := mapInsert st.proxy h ⟨d₁, ⟨u₁⟩⟩ } : State) = st' :=
            Option.some.inj hsucc
        subst hst'
        cases hp₂ : parse d₂ with
        | none => rw [addProxy, hp₂, addProxy, hp₂]
        | some u₂ =>
            rw [addProxy, hp₂, addProxy, hp₂]
            show some ({ st with
              proxy := mapInsert (mapInsert st.proxy h ⟨d₁, ⟨u₁⟩⟩) h ⟨d₂, ⟨u₂⟩⟩ } : State) = _
            rw [mapInsert_mapInsert]
  refine ⟨hnf, fun st h d => hred st h d d, fun st h d => hsta st h d d,
    ?_, hred, hsta, hpro⟩
  intro parse st h d st' hsucc
  rw [hpro parse st h d d st' hsucc]
  exact hsucc

def wParseC7 : String → Option GoURL := fun s => some ⟨"http", s, ""⟩

def wStC7 : State :=
  { State.init with
    proxy := mapInsert State.init.proxy ("h") ⟨"up", ⟨⟨"http", "up", ""⟩⟩⟩ }

/-- Witness for C7: re-registering the proxy for host `h` with the same
upstream leaves the table exactly as after the first registration. -/
theorem registration_idempotent_last_wins_witness :
    addProxy wParseC7 wStC7 ("h") "up" = some wStC7 :=
  registration_idempotent_last_wins.2.2.2.1 wParseC7 State.init ("h") "up"
    wStC7 rfl

/-- Claim C8: the response for an unregistered host (generic fallback) is
functionally identical — same status, same body — to the response of an
explicit `NotFound` entry for the same request; the two code paths differ
only in the log line they emit. -/
theorem explicit_notFound_equals_generic (st st' : State) (req : Request)
    (h1 : st.redirect req.host = none) (h2 : st.proxy req.host = none)
    (g1 : st'.redirect req.host = none) (g2 : st'.proxy req.host = none)
    (g3 : st'.notFound req.host = none) (g4 : st'.static req.host = none) :
    Handler (addNotFound st req.host) req =
      some ("Not Found(" ++ req.host ++ ") " ++ req.requestURI ++ "\n",
        Response.plainResp 404 ("404 page not found\n"))
    ∧ Handler st' req =
      some ("Host Not Found(" ++ req.host ++ ")" ++ "\n",
        Response.plainResp 404 ("404 page not found\n"))
    ∧ ("Not Found(" ++ req.host ++ ") " ++ req.requestURI ++ "\n" : String) ≠
        ("Host Not Found(" ++ req.host ++ ")" ++ "\n" : String) := by
  refine ⟨?_, ?_, notFound_log_ne_generic_log _ _ _⟩
  · simp [Handler, addNotFound, mapInsert, h1, h2, NotFound.serveHTTP,
      httpNotFoundHandler]
  · simp [Handler, g1, g2, g3, g4, genericNotFound, httpNotFoundHandler]

/-- Witness for C8 at a concrete request: both paths answer 404 with the
standard body, under different log lines. -/
theorem explicit_notFound_equals_generic_witness :
    Handler (addNotFound State.init ("x")) ⟨"x", "/p", "/p?q"⟩ =
      some ("Not Found(x) /p?q\n",
        Response.plainResp 404 ("404 page not found\n"))
    ∧ Handler State.init ⟨"x", "/p", "/p?q"⟩ =
      some ("Host Not Found(x)\n",
        Response.plainResp 404 ("404 page not found\n")) := by
  have h := explicit_notFound_equals_generic State.init State.init
    ⟨"x", "/p", "/p?q"⟩ rfl rfl rfl rfl rfl rfl
  exact ⟨by rw [h.1]; rfl, by rw [h.2.1]; rfl⟩

/-- Claim C1: against any table produced by the registration loop, dispatch
follows the fixed precedence Redirect > ReverseProxy > NotFound > StaticSite,
and the chosen handler depends only on which variants have a (last)
registration for the request's host — computed per variant from that
variant's registrations alone via `lastRedirectFor`/`lastProxyFor`/
`hasNotFoundFor`/`lastStaticFor` — never on how registrations of different
variants were interleaved; in every case exactly the one named handler's
`ServeHTTP` produces the response. -/
theorem dispatch_precedence_contract (parse : String → Option GoURL)
    (cfgs : List RouteConfig) (st : State) (req : Request)
    (hb : buildTable parse cfgs = some st) :
    (∀ d, lastRedirectFor cfgs req.host = some d →
        Handler st req = some (Redirect.serveHTTP ⟨d⟩ req))
    ∧ (lastRedirectFor cfgs req.host = none →
        ∀ d, lastProxyFor cfgs req.host = some d →
        ∃ u, parse d = some u ∧
          Handler st req = some (Proxy.serveHTTP ⟨d, ⟨u⟩⟩ req))
    ∧ (lastRedirectFor cfgs req.host = none →
        lastProxyFor cfgs req.host = none →
        hasNotFoundFor cfgs req.host = true →
        Handler st req = some (NotFound.serveHTTP ⟨httpNotFoundHandler⟩ req))
    ∧ (lastRedirectFor cfgs req.host = none →
        lastProxyFor cfgs req.host = none →
        hasNotFoundFor cfgs req.host = false →
        ∀ d, lastStaticFor cfgs req.host = some d →
        Handler st req = Static.serveHTTP ⟨d⟩ req) := by
  have hb' : List.foldlM (applyConfig parse) State.init cfgs = some st := hb
  obtain ⟨hR, hRn, hP, hPn, hN, hNn, hS, hSn⟩ :=
    buildFrom_lookup parse cfgs State.init st hb' req.host
  refine ⟨?_, ?_, ?_, ?_⟩
  · intro d hd
    simp [Handler, hR d hd]
  · intro hrn d hd
    obtain ⟨u, hu, hpx⟩ := hP d hd
    have hr0 : st.redirect req.host = none := hRn hrn
    exact ⟨u, hu, by simp [Handler, hr0, hpx]⟩
  · intro hrn hpn hnf
    have hr0 : st.redirect req.host = none := hRn hrn
    have hp0 : st.proxy req.host = none := hPn hpn
    have hn0 : st.notFound req.host = some ⟨httpNotFoundHandler⟩ := hN hnf
    simp [Handler, hr0, hp0, hn0]
  · intro hrn hpn hnf d hd
    have hr0 : st.redirect req.host = none := hRn hrn
    have hp0 : st.proxy req.host = none := hPn hpn
    have hn0 : st.notFound req.host = none := hNn hnf
    have hs0 : st.static req.host = some ⟨d⟩ := hS d hd
    simp [Handler, hr0, hp0, hn0, hs0]

def wParseC1 : String → Option GoURL := fun s => some ⟨"http", s, ""⟩

/-- A misconfigured host `h` registered under all four variants, with the
redirect registration made first (so no registration-order effect could
favor it). -/
def wCfgsC1 : List RouteConfig :=
  [RouteConfig.redirectCfg ("h") "https://e",
   RouteConfig.staticCfg ("h") "/d/",
   RouteConfig.notFoundCfg ("h"),
   RouteConfig.proxyCfg ("h") "up"]

def wStC1 : State :=
  match addProxy wParseC1
      (addNotFound (addStatic (addRedirect State.init ("h") "https://e") "h" "/d/") "h")
      "h" "up" with
  | some st => st
  | none => State.init

/-- Witness for C1: with host `h` present in all four maps, the redirect
entry — registered first — serves the request. -/
theorem dispatch_precedence_contract_witness :
    Handler wStC1 ⟨"h", "/p", "/p"⟩ =
      some (Redirect.serveHTTP ⟨"https://e"⟩ ⟨"h", "/p", "/p"⟩) :=
  (dispatch_precedence_contract wParseC1 wCfgsC1 wStC1 ⟨"h", "/p", "/p"⟩
    rfl).1 ("https://e") rfl

/-- Helper for C4: once the config list contains a proxy registration whose
upstream does not parse, the whole registration loop is fatal, from any
intermediate state. -/
theorem buildFrom_fatal (parse : String → Option GoURL) (host dst : String)
    (hp : parse dst = none) :
    ∀ (cfgs : List RouteConfig) (st₀ : State),
      RouteConfig.proxyCfg host dst ∈ cfgs →
      List.foldlM (applyConfig parse) st₀ cfgs = none := by
  intro cfgs
  induction cfgs with
  | nil =>
      intro st₀ hmem
      cases hmem
  | cons c cs ih =>
      intro st₀ hmem
      rw [List.foldlM_cons]
      rcases List.mem_cons.mp hmem with hc | hcs
      · subst hc
        have hnone : applyConfig parse st₀ (RouteConfig.proxyCfg host dst) = none := by
          simp [applyConfig, addProxy, hp]
        rw [hnone]
        rfl
      · cases applyConfig parse st₀ c with
        | none => rfl
        | some st₁ => exact ih st₁ hcs

/-- Claim C4: `addProxy` parses the upstream URL; on parse failure it is
fatal (`log.Fatal` terminates the process, aborting the whole startup
sequence before any host is served — the listener only starts after the
registration loop finishes), and on success it stores a `Proxy` entry for the
host holding a forwarding client bound to the parsed upstream. -/
theorem proxy_registration_fatal_or_store (parse : String → Option GoURL)
    (st : State) (host dst : String) :
    (parse dst = none → addProxy parse st host dst = none)
    ∧ (∀ u, parse dst = some u →
        addProxy parse st host dst =
          some { st with proxy := mapInsert st.proxy host ⟨dst, ⟨u⟩⟩ })
    ∧ (∀ cfgs : List RouteConfig, RouteConfig.proxyCfg host dst ∈ cfgs →
        parse dst = none → buildTable parse cfgs = none) := by
  refine ⟨fun hp => by rw [addProxy, hp], fun u hp => by rw [addProxy, hp],
    fun cfgs hmem hp => ?_⟩
  exact buildFrom_fatal parse host dst hp cfgs State.init hmem

def wParseC4 : String → Option GoURL := fun _ => none

/-- Witness for C4: a config list whose second entry is a proxy route with an
unparsable upstream makes the whole build fatal, even though another host was
registered first. -/
theorem proxy_registration_fatal_or_store_witness :
    buildTable wParseC4
      [RouteConfig.notFoundCfg ("a"), RouteConfig.proxyCfg ("h") "bad"] = none :=
  (proxy_registration_fatal_or_store wParseC4 State.init ("h") "bad").2.2
    [RouteConfig.notFoundCfg ("a"), RouteConfig.proxyCfg ("h") "bad"]
    (by decide) rfl
